import Mathlib

set_option maxRecDepth 4000

/-!
Shallow embedding of the `next-geo` core: signal detection (`detectLlmSignal`,
`parseAcceptMarkdown`), path validation (`isValidPath`), the filesystem artifact
store (`findPageMd`, `isPathWithinDirectory`, `parseFrontmatter`) and the
resolution pipeline (`resolveMarkdown`).  Pure string functions are translated
directly from the TypeScript source.  JavaScript string primitives
(`split`, `trim`, `indexOf`, `parseFloat`, `parseInt`, …) are modelled by
structural functions over `List Char` so that every definition evaluates by
kernel reduction.  Filesystem and network effects are modelled by explicit
environments, and instrumented variants additionally return the list of
read/fetch calls performed, so that "never read / never fetched" properties
can be stated.
-/

namespace NextGeo

/-- Whitespace test modelling the JavaScript `\s` class (and `String.trim`)
restricted to the ASCII range, which is all that occurs in this code base. -/
def isJsWS (c : Char) : Bool :=
  c = ' ' || c = '\t' || c = '\n' || c = '\r' || c = '\x0b' || c = '\x0c'

/-- Strip leading and trailing JS whitespace from a character list; models
`String.prototype.trim`. -/
def trimChars (l : List Char) : List Char :=
  ((l.dropWhile isJsWS).reverse.dropWhile isJsWS).reverse

/-- Strip only trailing JS whitespace (the right half of `trimChars`). -/
def rtrimChars (l : List Char) : List Char :=
  (l.reverse.dropWhile isJsWS).reverse

/-- Models JavaScript `s.split(sep)` for a single-character separator (the
only kind this code base uses: `","`, `";"`, `"/"`, `"\n"`). -/
def splitOnChar (sep : Char) : List Char → List (List Char)
  | [] => [[]]
  | c :: rest =>
    if c = sep then [] :: splitOnChar sep rest
    else
      match splitOnChar sep rest with
      | [] => [[c]]
      | h :: t => (c :: h) :: t

/-- Does `pat` occur as a contiguous sublist of `l`?  Models the substring
search underlying `String.prototype.includes`. -/
def hasSubList (pat : List Char) : List Char → Bool
  | [] => pat.isEmpty
  | c :: rest => pat.isPrefixOf (c :: rest) || hasSubList pat rest

/-- Index of the first occurrence of `pat` in `l`, if any. -/
def firstOcc (pat : List Char) : List Char → Option Nat
  | [] => if pat.isEmpty then some 0 else none
  | c :: rest =>
    if pat.isPrefixOf (c :: rest) then some 0
    else (firstOcc pat rest).map (· + 1)

/-- Models JavaScript `s.indexOf(pat, from)`: the first occurrence of `pat`
at an index `≥ from` (`none` for the `-1` result). -/
def indexOfFrom (l pat : List Char) (start : Nat) : Option Nat :=
  (firstOcc pat (l.drop start)).map (· + start)

/-- Models JavaScript `s.includes(pat)`. -/
def strIncludes (s pat : String) : Bool :=
  hasSubList pat.toList s.toList

/-- ASCII lower-casing of one character, as done by `toLowerCase` on the
media types this code compares. -/
def lowerChar (c : Char) : Char :=
  if 'A' ≤ c ∧ c ≤ 'Z' then Char.ofNat (c.toNat + 32) else c

/-- Numeric value of a digit run (most significant first). -/
def digitsVal (l : List Char) : Nat :=
  l.foldl (fun acc c => 10 * acc + (c.toNat - '0'.toNat)) 0

/-- A JavaScript number as the detector observes it: a finite value
(idealized as its exact rational) or an infinity.  `NaN` is represented by
`none` at the `Option JsFloat` level, mirroring the `isNaN` check in the
source. -/
inductive JsFloat where
  | finite (val : ℚ)
  | posInf
  | negInf
deriving DecidableEq, Repr

instance : OfNat JsFloat 0 := ⟨.finite 0⟩

instance : OfNat JsFloat 1 := ⟨.finite 1⟩

/-- The `<` order of JavaScript numbers (minus `NaN`, which never reaches a
comparison in this code). -/
instance : LT JsFloat := ⟨fun a b =>
  match a, b with
  | .negInf, .negInf => False
  | .negInf, .finite _ => True
  | .negInf, .posInf => True
  | .finite _, .negInf => False
  | .finite x, .finite y => x < y
  | .finite _, .posInf => True
  | .posInf, .negInf => False
  | .posInf, .finite _ => False
  | .posInf, .posInf => False⟩

instance : ∀ (a b : JsFloat), Decidable (a < b)
  | .negInf, .negInf => isFalse id
  | .negInf, .finite _ => isTrue trivial
  | .negInf, .posInf => isTrue trivial
  | .finite _, .negInf => isFalse id
  | .finite x, .finite y => inferInstanceAs (Decidable (x < y))
  | .finite _, .posInf => isTrue trivial
  | .posInf, .negInf => isFalse id
  | .posInf, .finite _ => isFalse id
  | .posInf, .posInf => isFalse id

/-- `2 ^ 1024 − 2 ^ 971`: under binary64 round-to-nearest-even, exactly the
rationals with absolute value at least this bound round to an infinity
(proved as `OVERFLOW_BOUND_eq` below; spelled as a literal so comparisons
evaluate by kernel reduction). -/
def OVERFLOW_BOUND : ℚ := Rat.divInt 179769313486231570814527423731704356798070567525844996598917476803157260780028538760589558632766878171540458953514382464234321326889464182768467546703537516986049910576551282076245490090389328944075868508455133942304583236903222948165808559332123348274797826204144723168738177180919299881250404026184124858368 1

/-- `2 ^ (−1075)`: under binary64 round-to-nearest-even, exactly the
rationals with absolute value at most this bound round to zero (proved as
`UNDERFLOW_BOUND_eq` below). -/
def UNDERFLOW_BOUND : ℚ := Rat.divInt 1 404804506614621236704990693437834614099113299528284236713802716054860679135990693783920767402874248990374155728633623822779617474771586953734026799881477019843034848553132722728933815484186432682479535356945490137124014966849385397236206711298319112681620113024717539104666829230461005064372655017292012526615415482186989568

/-- Classify an exactly-parsed rational as the binary64 value JavaScript
would hold: values at or beyond the overflow boundary become infinities,
values at or within the underflow boundary become zero, and other values
are idealized as their exact rational (binary64 rounding strictly inside
the finite range, which never changes the zero/finite/infinite
classification or the sign, is not modelled). -/
def saturateDouble (q : ℚ) : JsFloat :=
  if OVERFLOW_BOUND ≤ q then .posInf
  else if q ≤ -OVERFLOW_BOUND then .negInf
  else if -UNDERFLOW_BOUND ≤ q ∧ q ≤ UNDERFLOW_BOUND then .finite 0
  else .finite q

/-- Models JavaScript `parseFloat` on ASCII input: skip leading whitespace,
read an optional sign, then either the `Infinity` literal or a decimal
significand with an optional `e`/`E` exponent; `parseFloat` takes the
longest valid prefix, so the exponent part is consumed only when at least
one digit follows the `e`/`E` and optional exponent sign.  The exact
rational value is then classified by `saturateDouble`.  `none` models the
`NaN` result. -/
def parseJsFloat (s : List Char) : Option JsFloat :=
  let l := s.dropWhile isJsWS
  let (neg, l) : Bool × List Char :=
    match l with
    | '-' :: r => (true, r)
    | '+' :: r => (false, r)
    | _ => (false, l)
  if "Infinity".toList.isPrefixOf l then
    some (if neg then .negInf else .posInf)
  else
    let ip := l.takeWhile Char.isDigit
    let l1 := l.dropWhile Char.isDigit
    let (fp, l2) : List Char × List Char :=
      match l1 with
      | '.' :: r => (r.takeWhile Char.isDigit, r.dropWhile Char.isDigit)
      | _ => ([], l1)
    if ip.isEmpty && fp.isEmpty then none
    else
      let exp : Int :=
        match l2 with
        | 'e' :: r => expDigits r
        | 'E' :: r => expDigits r
        | _ => 0
      let mag : Nat := digitsVal ip * 10 ^ fp.length + digitsVal fp
      let num : Int := if neg then -(mag : Int) else (mag : Int)
      let net : Int := exp - fp.length
      let mq : ℚ :=
        if 0 ≤ net then Rat.divInt (num * ((10 ^ net.toNat : Nat) : Int)) 1
        else Rat.divInt num ((10 ^ (-net).toNat : Nat) : Int)
      some (saturateDouble mq)
where
  /-- The signed exponent digits, or `0` when the exponent part is not
  well-formed and hence not consumed. -/
  expDigits (r : List Char) : Int :=
    let (eneg, r) : Bool × List Char :=
      match r with
      | '-' :: t => (true, t)
      | '+' :: t => (false, t)
      | _ => (false, r)
    let ed := r.takeWhile Char.isDigit
    if ed.isEmpty then 0
    else if eneg then -(digitsVal ed : Int) else (digitsVal ed : Int)

/-- Models JavaScript `parseInt(s, 10)`: optional sign then leading decimal
digits; `none` models `NaN`. -/
def parseIntM (s : String) : Option Int :=
  let l := s.toList.dropWhile isJsWS
  let (sign, l) : Int × List Char :=
    match l with
    | '-' :: r => (-1, r)
    | '+' :: r => (1, r)
    | _ => (1, l)
  let ip := l.takeWhile Char.isDigit
  if ip.isEmpty then none else some (sign * (digitsVal ip : Int))

/-- The `LlmSignal` tagged union from `src/types.ts`.  The quality is the
JavaScript number `parseAcceptMarkdown` computes (`NaN` is already
defaulted away there). -/
inductive LlmSignal where
  | mdSuffix (originalPath : String)
  | acceptHeader (quality : JsFloat)
  | userAgent (botName : String)
deriving DecidableEq, Repr

/-- `BOT_USER_AGENTS` from `src/constants.ts`. -/
def BOT_USER_AGENTS : List String :=
  ["ChatGPT-User", "ClaudeBot", "GPTBot", "PerplexityBot", "Applebot-Extended",
   "Google-Extended", "CCBot", "anthropic-ai", "cohere-ai", "Claude-SearchTool"]

/-- The detector options record, with the defaults applied by
`detectLlmSignal`'s destructuring (`options ?? {}`). -/
structure DetectOptions where
  enableMdSuffix : Bool := true
  enableUserAgentDetection : Bool := true
  additionalBotUserAgents : List String := []

/-- `parseAcceptMarkdown` from `src/detect.ts`: quality of `text/markdown`
in an Accept header, `0` when absent (and `1` when the `q=` parameter is
absent or parses to `NaN`). -/
def parseAcceptMarkdown (accept : String) : JsFloat :=
  go ((splitOnChar ',' accept.toList).map trimChars)
where
  /-- Scan the comma-separated entries in order; first `text/markdown` entry
  wins. -/
  go : List (List Char) → JsFloat
  | [] => 0
  | part :: rest =>
    match (splitOnChar ';' part).map trimChars with
    | [] => go rest
    | mediaType :: params =>
      if mediaType.map lowerChar = "text/markdown".toList then
        match params.find? (fun p => "q=".toList.isPrefixOf p) with
        | some qParam =>
          match parseJsFloat (qParam.drop 2) with
          | some q => q
          | none => 1
        | none => 1
      else go rest

/-- `detectLlmSignal` from `src/detect.ts`: priority order is `.md` suffix,
then `Accept: text/markdown`, then User-Agent substring match. -/
def detectLlmSignal (pathname : String) (accept : Option String)
    (userAgent : Option String) (options : DetectOptions := {}) :
    Option LlmSignal :=
  -- 1. .md URL suffix (highest priority)
  if options.enableMdSuffix && ".md".toList.isSuffixOf pathname.toList then
    let stripped := String.mk pathname.toList.dropLast.dropLast.dropLast
    some (.mdSuffix (if stripped = "" then "/" else stripped))
  else
    -- 2. Accept: text/markdown header
    match accept with
    | some a =>
      let quality := parseAcceptMarkdown a
      if 0 < quality then some (.acceptHeader quality)
      else detectUserAgent userAgent options
    | none => detectUserAgent userAgent options
where
  /-- Step 3: User-Agent matching (lowest priority). -/
  detectUserAgent (userAgent : Option String) (options : DetectOptions) :
      Option LlmSignal :=
    match userAgent with
    | some ua =>
      if options.enableUserAgentDetection then
        ((BOT_USER_AGENTS ++ options.additionalBotUserAgents).find?
          (fun pat => strIncludes ua pat)).map .userAgent
      else none
    | none => none

/-- `isValidPath` from `src/handler.ts`. -/
def isValidPath (path : String) : Bool :=
  -- Must start with exactly one / (reject protocol-relative URLs)
  if !"/".toList.isPrefixOf path.toList || "//".toList.isPrefixOf path.toList then false
  -- Must not contain a protocol scheme
  else if strIncludes path "://" then false
  -- Must not contain path traversal segments
  else if (splitOnChar '/' path.toList).any (fun s => s = ".".toList || s = "..".toList) then false
  else true

/-- Result of `parseFrontmatter` from `src/fs.ts`: the optional `redirect`
field and the body. -/
structure Frontmatter where
  redirect : Option String
  body : String
deriving DecidableEq, Repr

/-- The line-terminator class that the regex metacharacter `.` (without the
`s` flag) does not match: `\n` and `\r` in the ASCII range this embedding
covers. -/
def isLineTerm (c : Char) : Bool :=
  c = '\n' || c = '\r'

/-- Models the regex `^\s*redirect\s*:\s*(.+?)\s*$` applied to one line.
`.` does not match a line terminator, so when the text after the colon has
a non-whitespace character the match succeeds only if its trimmed span is
terminator-free (every capture the engine can try contains that span), the
capture then being the trimmed span; when the text after the colon is
whitespace-only, the greedy `\s*` and the lazy group make the capture the
last character `.` can match, i.e. the last non-terminator character, when
one exists. -/
def redirectLineValue (line : List Char) : Option String :=
  let l1 := line.dropWhile isJsWS
  if "redirect".toList.isPrefixOf l1 then
    match (l1.drop 8).dropWhile isJsWS with
    | ':' :: l3 =>
      if l3.any (fun c => !isJsWS c) then
        if (trimChars l3).any isLineTerm then none
        else some (String.mk (trimChars l3))
      else
        match (l3.filter (fun c => !isLineTerm c)).getLast? with
        | some c => some (String.mk [c])
        | none => none
    | _ => none
  else none

/-- Models `.replace(/^\r?\n/, "")`: strip one leading line break. -/
def stripLeadingNewline : List Char → List Char
  | '\r' :: '\n' :: rest => rest
  | '\n' :: rest => rest
  | l => l

/-- `parseFrontmatter` from `src/fs.ts`: a leading `---` and the next
occurrence of `---` (found by `content.indexOf("---", 3)`) delimit the
metadata block; the first line matching the redirect regex supplies the
redirect target; the body is everything after the closing `---` with one
leading line break stripped. -/
def parseFrontmatter (content : String) : Frontmatter :=
  let cs := content.toList
  if !"---".toList.isPrefixOf cs then ⟨none, content⟩
  else
    match indexOfFrom cs "---".toList 3 with
    | none => ⟨none, content⟩
    | some endIndex =>
      let frontmatter := (cs.drop 3).take (endIndex - 3)
      let body := stripLeadingNewline (cs.drop (endIndex + 3))
      ⟨(splitOnChar '\n' frontmatter).findSome? redirectLineValue, String.mk body⟩

/-- The filesystem seen by `findPageMd`: the absolute app directory, plus the
`readFile`/`readdir` primitives (`none` models a thrown fs error). -/
structure FsEnv where
  appDir : String
  read : String → Option String
  readdir : String → Option (List String)

/-- Segment normalization of Node `path.resolve`: drop empty and `.`
segments, let `..` pop the previous segment (staying at the root). -/
def normJoin : List (List Char) → List (List Char) → List (List Char)
  | [], acc => acc.reverse
  | s :: rest, acc =>
    if s = [] || s = ".".toList then normJoin rest acc
    else if s = "..".toList then normJoin rest acc.tail
    else normJoin rest (s :: acc)

/-- Models Node `path.resolve(base, ...parts)` for an absolute `base`:
concatenate all segments and normalize. -/
def resolveAbs (base : String) (parts : List String) : String :=
  String.mk ('/' :: List.intercalate "/".toList
    (normJoin (splitOnChar '/' base.toList ++ parts.map String.toList) []))

/-- `isPathWithinDirectory` from `src/fs.ts`. -/
def isPathWithinDirectory (filePath directory : String) : Bool :=
  (directory.toList ++ "/".toList).isPrefixOf filePath.toList || filePath = directory

/-- The path segments `findPageMd` derives from the request path: `"/"`
normalizes to no segments; otherwise one leading `/` is stripped
(`.replace(/^\//, "")`) and the remainder, when nonempty, is split on `/`. -/
def segmentsOf (requestPath : String) : List String :=
  let normalizedPath : List Char :=
    if requestPath = "/" then []
    else
      match requestPath.toList with
      | '/' :: rest => rest
      | l => l
  if normalizedPath = [] then []
  else (splitOnChar '/' normalizedPath).map String.mk

/-- The direct candidate `resolve(appDir, ...segments, "page.md")`. -/
def directCandidate (fs : FsEnv) (requestPath : String) : String :=
  resolveAbs fs.appDir (segmentsOf requestPath ++ ["page.md"])

/-- The route-group candidate `resolve(appDir, group, ...segments, "page.md")`. -/
def groupCandidate (fs : FsEnv) (group : String) (requestPath : String) : String :=
  resolveAbs fs.appDir (group :: (segmentsOf requestPath ++ ["page.md"]))

/-- The route-group loop of `findPageMd`: skip candidates that fail the
containment check, read the rest in order, first hit wins.  `reads`
accumulates the paths passed to `tryReadFile`. -/
def scanRouteGroups (fs : FsEnv) (requestPath : String) :
    List String → List String → Option String × List String
  | [], reads => (none, reads)
  | g :: rest, reads =>
    let groupPath := groupCandidate fs g requestPath
    if !isPathWithinDirectory groupPath fs.appDir then
      scanRouteGroups fs requestPath rest reads
    else
      match fs.read groupPath with
      | some c => (some c, reads ++ [groupPath])
      | none => scanRouteGroups fs requestPath rest (reads ++ [groupPath])

/-- Instrumented `findPageMd` from `src/fs.ts`: the first component is the
artifact found (direct candidate first, then route-group directories in
listing order); the second lists the file paths passed to `tryReadFile`, in
order. -/
def findPageMdT (fs : FsEnv) (requestPath : String) : Option String × List String :=
  let directPath := directCandidate fs requestPath
  if !isPathWithinDirectory directPath fs.appDir then (none, [])
  else
    match fs.read directPath with
    | some c => (some c, [directPath])
    | none =>
      match fs.readdir fs.appDir with
      | none => (none, [directPath])
      | some topDirs =>
        let routeGroups := topDirs.filter
          (fun d => "(".toList.isPrefixOf d.toList && ")".toList.isSuffixOf d.toList)
        scanRouteGroups fs requestPath routeGroups [directPath]

/-- `findPageMd` itself: the artifact found, if any. -/
def findPageMd (fs : FsEnv) (requestPath : String) : Option String :=
  (findPageMdT fs requestPath).1

/-- The file paths `findPageMd` attempts to read, in order. -/
def readTrace (fs : FsEnv) (requestPath : String) : List String :=
  (findPageMdT fs requestPath).2

/-- A parsed URL, reduced to the two components the resolver inspects. -/
structure UrlM where
  host : String
  pathname : String
deriving DecidableEq, Repr

/-- Models `new URL(path, base)` for the path shapes that occur during
resolution: a root-relative path keeps the base's host, a protocol-relative
path (`//host/rest`) names its own host.  (Non-slash relative paths never
reach this point; they are kept on the base host.) -/
def mkUrl (base : UrlM) (path : String) : UrlM :=
  if "//".toList.isPrefixOf path.toList then
    let rest := path.toList.drop 2
    let hostPart := rest.takeWhile (fun c => c ≠ '/')
    let p := rest.dropWhile (fun c => c ≠ '/')
    ⟨String.mk hostPart, if p = [] then "/" else String.mk p⟩
  else ⟨base.host, path⟩

/-- An HTTP response as the resolver inspects it.  `location` is the
`location` header already resolved against the fetch URL
(`new URL(location, url)`); `none` covers an absent or empty header. -/
structure FetchResp where
  status : Nat
  location : Option UrlM
  contentLength : Option String
  body : String
deriving DecidableEq, Repr

/-- The collaborators of `resolveMarkdown`: the origin base URL, the artifact
store, the HTTP fetch primitive (`none` models a thrown network error, which
the source catches), the markdown converter, and the `enableAutoConversion`
flag.  Forwarded cookies ride along on every fetch the resolver issues, so
cookie-exposure questions reduce to which URLs get fetched. -/
structure GeoEnv where
  base : UrlM
  findPageMd : String → Option String
  fetch : UrlM → Option FetchResp
  convert : String → String
  enableAutoConversion : Bool

/-- `MAX_REDIRECTS` from `src/handler.ts`. -/
def MAX_REDIRECTS : Nat := 3

/-- `MAX_HTML_SIZE` from `src/handler.ts` (5 MiB). -/
def MAX_HTML_SIZE : Nat := 5 * 1024 * 1024

/-- Which branch of the pipeline produced the content. -/
inductive Via where
  | curated
  | converted
deriving DecidableEq, Repr

/-- The resolver's successful outcome: content plus cache-control policy. -/
structure Resolved where
  content : String
  cacheControl : String
deriving DecidableEq, Repr

/-- The cache policy attached to curated artifacts. -/
def publicCacheControl : String := "public, max-age=300, s-maxage=3600"

/-- The cache policy attached to live-converted content. -/
def privateCacheControl : String := "private, max-age=300"

/-- The declared-length pre-check
`contentLength && parseInt(contentLength, 10) > MAX_HTML_SIZE` (an empty
header string is falsy, and a `NaN` parse fails the comparison). -/
def contentLengthOver (cl : Option String) : Bool :=
  match cl with
  | none => false
  | some s =>
    if s = "" then false
    else
      match parseIntM s with
      | some n => decide ((MAX_HTML_SIZE : Int) < n)
      | none => false

/-- The post-read body check `!html.trim() || html.length > MAX_HTML_SIZE`
(length counted in characters). -/
def bodyRejected (body : String) : Bool :=
  trimChars body.toList = [] || decide (MAX_HTML_SIZE < body.toList.length)

/-- Instrumented `resolveMarkdown` from `src/handler.ts`.  `fuel` only
drives the structural recursion: every recursive call in the source is
guarded by `redirectDepth < MAX_REDIRECTS` (the frontmatter branch returns
`null` when `redirectDepth >= MAX_REDIRECTS`) and increments
`redirectDepth`, so with `fuel = MAX_REDIRECTS + 1` at entry the `fuel = 0`
branch is never reached.  Returns the outcome tagged with the producing
branch, the list of fetched URLs in order, and the number of resolution
attempts made. -/
def resolveGo (env : GeoEnv) :
    Nat → Nat → String → Option (Resolved × Via) × List UrlM × Nat
  | 0, _, _ => (none, [], 0)
  | fuel + 1, depth, path =>
    -- Step 1: Try to find a page.md file
    match env.findPageMd path with
    | some pageMd =>
      let fm := parseFrontmatter pageMd
      match fm.redirect with
      | some redirect =>
        -- Follow frontmatter redirect to another path's markdown
        if !isValidPath redirect || MAX_REDIRECTS ≤ depth then (none, [], 1)
        else
          let r := resolveGo env fuel (depth + 1) redirect
          (r.1, r.2.1, r.2.2 + 1)
      | none => (some (⟨fm.body, publicCacheControl⟩, .curated), [], 1)
    | none =>
      -- Step 2: Auto-convert HTML to markdown
      if !env.enableAutoConversion then (none, [], 1)
      else
        -- Guard against SSRF: ensure the URL stays on the same host
        let url := mkUrl env.base path
        if url.host ≠ env.base.host then (none, [], 1)
        else
          match env.fetch url with
          | none => (none, [url], 1)   -- fetch threw: caught, treated as null
          | some resp =>
            if depth < MAX_REDIRECTS ∧ 300 ≤ resp.status ∧ resp.status < 400 then
              match resp.location with
              | some redirectUrl =>
                if redirectUrl.host = env.base.host then
                  let r := resolveGo env fuel (depth + 1) redirectUrl.pathname
                  (r.1, url :: r.2.1, r.2.2 + 1)
                else (none, [url], 1)
              | none => (none, [url], 1)
            else if ¬ (200 ≤ resp.status ∧ resp.status < 300) then (none, [url], 1)
            else if contentLengthOver resp.contentLength then (none, [url], 1)
            else if bodyRejected resp.body then (none, [url], 1)
            else (some (⟨env.convert resp.body, privateCacheControl⟩, .converted), [url], 1)

/-- `resolveMarkdown` with instrumentation, at the fuel the guards make
sufficient for every entry depth. -/
def resolveMarkdownT (env : GeoEnv) (depth : Nat) (path : String) :
    Option (Resolved × Via) × List UrlM × Nat :=
  resolveGo env (MAX_REDIRECTS + 1) depth path

/-- `resolveMarkdown` from `src/handler.ts`: the outcome alone. -/
def resolveMarkdown (env : GeoEnv) (depth : Nat) (path : String) :
    Option Resolved :=
  ((resolveMarkdownT env depth path).1).map Prod.fst

/-- The URLs `resolveMarkdown` fetches, in order. -/
def fetchTrace (env : GeoEnv) (depth : Nat) (path : String) : List UrlM :=
  (resolveMarkdownT env depth path).2.1

/-- The number of resolution attempts `resolveMarkdown` makes. -/
def attempts (env : GeoEnv) (depth : Nat) (path : String) : Nat :=
  (resolveMarkdownT env depth path).2.2

/-! Concrete collaborator instances used to exercise the pipeline. -/

/-- A concrete origin with a frontmatter-redirect chain `/a → /b → /c`, a
four-redirect chain `/d0 → … → /d4`, a convertible live page, a
foreign-host redirect, an oversized declared length, and a blank body. -/
def exampleEnv : GeoEnv where
  base := ⟨"example.com", "/"⟩
  findPageMd := fun p =>
    if p = "/a" then some "---\nredirect: /b\n---\n"
    else if p = "/b" then some "---\nredirect: /c\n---"
    else if p = "/c" then some "C body"
    else if p = "/d0" then some "---\nredirect: /d1\n---"
    else if p = "/d1" then some "---\nredirect: /d2\n---"
    else if p = "/d2" then some "---\nredirect: /d3\n---"
    else if p = "/d3" then some "---\nredirect: /d4\n---"
    else if p = "/d4" then some "deep"
    else none
  fetch := fun u =>
    if u.pathname = "/live" then some ⟨200, none, some "120", "<p>hi</p>"⟩
    else if u.pathname = "/redir" then some ⟨307, some ⟨"evil.com", "/x"⟩, none, ""⟩
    else if u.pathname = "/big-cl" then some ⟨200, none, some "9999999", "small"⟩
    else if u.pathname = "/blank" then some ⟨200, none, none, "   "⟩
    else none
  convert := fun s => String.mk ("MD:".toList ++ s.toList)
  enableAutoConversion := true

/-- A body one character over the 5 MiB ceiling. -/
def bigBody : String := String.mk (List.replicate (MAX_HTML_SIZE + 1) 'a')

/-- An origin whose live fetch succeeds with an oversized body and no
declared length. -/
def bigBodyEnv : GeoEnv where
  base := ⟨"example.com", "/"⟩
  findPageMd := fun _ => none
  fetch := fun _ => some ⟨200, none, none, bigBody⟩
  convert := fun s => s
  enableAutoConversion := true

/-- A concrete content tree with a direct artifact and a route-group
artifact. -/
def exampleFs : FsEnv where
  appDir := "/w/app"
  read := fun p =>
    if p = "/w/app/pricing/page.md" then some "# P"
    else if p = "/w/app/(main)/docs/page.md" then some "# D"
    else none
  readdir := fun p =>
    if p = "/w/app" then some ["(main)", "pricing", "x.txt"] else none

/-! Helper lemmas about the resolver's recursion. -/

/-- Every URL the resolver fetches is on the origin host: the SSRF guard
runs before the fetch of the current path, and redirect targets are only
followed after their host is checked. -/
theorem resolveGo_trace_host (env : GeoEnv) :
    ∀ (fuel depth : Nat) (path : String) (u : UrlM),
      u ∈ (resolveGo env fuel depth path).2.1 → u.host = env.base.host := by
  intro fuel
  induction fuel with
  | zero => intro depth path u h; simp [resolveGo] at h
  | succ fuel ih =>
    intro depth path u h
    simp only [resolveGo] at h
    cases hf : env.findPageMd path with
    | some pageMd =>
      simp only [hf] at h
      cases hr : (parseFrontmatter pageMd).redirect with
      | some redirect =>
        simp only [hr] at h
        split at h
        · simp at h
        · exact ih _ _ u (by simpa using h)
      | none => simp only [hr] at h; simp at h
    | none =>
      simp only [hf] at h
      split at h
      · simp at h
      · split at h
        · simp at h
        · next hhost =>
          have hhost : (mkUrl env.base path).host = env.base.host := by
            by_contra hc; exact hhost hc
          cases hfetch : env.fetch (mkUrl env.base path) with
          | none => simp only [hfetch] at h; simp_all
          | some resp =>
            simp only [hfetch] at h
            split at h
            · cases hloc : resp.location with
              | some redirectUrl =>
                simp only [hloc] at h
                split at h
                · simp only [List.mem_cons] at h
                  rcases h with rfl | hmem
                  · exact hhost
                  · exact ih _ _ u (by simpa using hmem)
                · simp at h
                  rw [h, hhost]
              | none =>
                simp only [hloc] at h
                simp at h
                rw [h, hhost]
            · split at h
              · simp at h; rw [h, hhost]
              · split at h
                · simp at h; rw [h, hhost]
                · split at h
                  · simp at h; rw [h, hhost]
                  · simp at h; rw [h, hhost]

/-- The number of resolution attempts is bounded by the remaining hop
budget plus one, independently of the fuel. -/
theorem resolveGo_attempts_le (env : GeoEnv) :
    ∀ (fuel depth : Nat) (path : String),
      (resolveGo env fuel depth path).2.2 ≤ (MAX_REDIRECTS - depth) + 1 := by
  intro fuel
  induction fuel with
  | zero => intro depth path; simp [resolveGo]
  | succ fuel ih =>
    intro depth path
    simp only [resolveGo]
    split
    next pageMd heq1 =>
      split
      next redirect heq2 =>
        split
        · simp
        next hguard =>
          simp only [Bool.or_eq_true, Bool.not_eq_true', decide_eq_true_eq,
            not_or] at hguard
          have hd : depth < MAX_REDIRECTS := by
            have := hguard.2; omega
          have hrec := ih (depth + 1) redirect
          show (resolveGo env fuel (depth + 1) redirect).2.2 + 1
            ≤ MAX_REDIRECTS - depth + 1
          omega
      next heq2 => simp
    next heq1 =>
      split
      · simp
      · split
        · simp
        · split
          · simp
          next resp heq3 =>
            split
            · next hcond =>
              split
              next redirectUrl heq4 =>
                split
                · next hsame =>
                  have hrec := ih (depth + 1) redirectUrl.pathname
                  have hd : depth < MAX_REDIRECTS := hcond.1
                  show (resolveGo env fuel (depth + 1) redirectUrl.pathname).2.2 + 1
                    ≤ MAX_REDIRECTS - depth + 1
                  omega
                · simp
              next heq4 => simp
            · split
              · simp
              · split
                · simp
                · split <;> simp

/-- Any successful outcome is tagged `curated` with the public policy or
`converted` with the private policy. -/
theorem resolveGo_policy (env : GeoEnv) :
    ∀ (fuel depth : Nat) (path : String) (r : Resolved) (v : Via),
      (resolveGo env fuel depth path).1 = some (r, v) →
      (v = .curated ∧ r.cacheControl = publicCacheControl) ∨
      (v = .converted ∧ r.cacheControl = privateCacheControl) := by
  intro fuel
  induction fuel with
  | zero => intro depth path r v h; simp [resolveGo] at h
  | succ fuel ih =>
    intro depth path r v h
    simp only [resolveGo] at h
    split at h
    · split at h
      · split at h
        · simp at h
        · exact ih _ _ _ _ h
      · simp only [Option.some.injEq, Prod.mk.injEq] at h
        obtain ⟨h1, h2⟩ := h
        left
        exact ⟨h2.symm, by rw [← h1]⟩
    · split at h
      · simp at h
      · split at h
        · simp at h
        · split at h
          · simp at h
          · split at h
            · split at h
              · split at h
                · exact ih _ _ _ _ h
                · simp at h
              · simp at h
            · split at h
              · simp at h
              · split at h
                · simp at h
                · split at h
                  · simp at h
                  · simp only [Option.some.injEq, Prod.mk.injEq] at h
                    obtain ⟨h1, h2⟩ := h
                    right
                    exact ⟨h2.symm, by rw [← h1]⟩

/-- Paths read by the route-group scan all pass the containment check,
provided the already-accumulated reads do. -/
theorem scanRouteGroups_within (fs : FsEnv) (requestPath : String) :
    ∀ (groups reads : List String),
      (∀ q ∈ reads, isPathWithinDirectory q fs.appDir = true) →
      ∀ q ∈ (scanRouteGroups fs requestPath groups reads).2,
        isPathWithinDirectory q fs.appDir = true := by
  intro groups
  induction groups with
  | nil =>
    intro reads hr q hq
    simp only [scanRouteGroups] at hq
    exact hr q hq
  | cons g rest ih =>
    intro reads hr q hq
    simp only [scanRouteGroups] at hq
    split at hq
    · exact ih reads hr q hq
    · next hin =>
      have hin : isPathWithinDirectory (groupCandidate fs g requestPath) fs.appDir = true := by
        simpa using hin
      split at hq
      · simp only at hq
        rcases List.mem_append.mp hq with h | h
        · exact hr q h
        · simp at h; rw [h]; exact hin
      · refine ih _ ?_ q hq
        intro q' hq'
        rcases List.mem_append.mp hq' with h | h
        · exact hr q' h
        · simp at h; rw [h]; exact hin

/-- One resolution step through a valid frontmatter redirect below the hop
bound. -/
theorem resolveGo_step_redirect (env : GeoEnv) (fuel depth : Nat)
    (path pageMd redirect : String)
    (h1 : env.findPageMd path = some pageMd)
    (h2 : (parseFrontmatter pageMd).redirect = some redirect)
    (h3 : isValidPath redirect = true)
    (h4 : depth < MAX_REDIRECTS) :
    resolveGo env (fuel + 1) depth path =
      ((resolveGo env fuel (depth + 1) redirect).1,
       (resolveGo env fuel (depth + 1) redirect).2.1,
       (resolveGo env fuel (depth + 1) redirect).2.2 + 1) := by
  have hguard : (!isValidPath redirect || decide (MAX_REDIRECTS ≤ depth)) = false := by
    simp [h3]
    omega
  simp only [resolveGo, h1, h2, hguard]
  simp

/-- One resolution step ending at a curated artifact with no redirect. -/
theorem resolveGo_step_curated (env : GeoEnv) (fuel depth : Nat)
    (path pageMd : String)
    (h1 : env.findPageMd path = some pageMd)
    (h2 : (parseFrontmatter pageMd).redirect = none) :
    resolveGo env (fuel + 1) depth path =
      (some (⟨(parseFrontmatter pageMd).body, publicCacheControl⟩, .curated), [], 1) := by
  simp only [resolveGo, h1, h2]

/-- A frontmatter redirect at or above the hop bound fails. -/
theorem resolveGo_step_hopExceeded (env : GeoEnv) (fuel depth : Nat)
    (path pageMd redirect : String)
    (h1 : env.findPageMd path = some pageMd)
    (h2 : (parseFrontmatter pageMd).redirect = some redirect)
    (h4 : MAX_REDIRECTS ≤ depth) :
    resolveGo env (fuel + 1) depth path = (none, [], 1) := by
  have hguard : (!isValidPath redirect || decide (MAX_REDIRECTS ≤ depth)) = true := by
    simp [h4]
  simp only [resolveGo, h1, h2, hguard]
  simp

/-- With no curated artifact, conversion enabled, the host check passed and
a non-redirect successful response, resolution reaches the two size checks
and the blank-body check. -/
theorem resolveGo_step_fetched (env : GeoEnv) (fuel depth : Nat)
    (path : String) (resp : FetchResp)
    (h1 : env.findPageMd path = none)
    (h2 : env.enableAutoConversion = true)
    (h3 : (mkUrl env.base path).host = env.base.host)
    (h4 : env.fetch (mkUrl env.base path) = some resp)
    (h5 : 200 ≤ resp.status) (h6 : resp.status < 300) :
    resolveGo env (fuel + 1) depth path =
      (if contentLengthOver resp.contentLength = true then
        (none, [mkUrl env.base path], 1)
       else if bodyRejected resp.body = true then
        (none, [mkUrl env.base path], 1)
       else
        (some (⟨env.convert resp.body, privateCacheControl⟩, .converted),
         [mkUrl env.base path], 1)) := by
  simp only [resolveGo, h1, h2, h4]
  rw [if_neg (by simp), if_neg (by rw [h3]; simp)]
  rw [if_neg (by rintro ⟨-, h300, -⟩; omega)]
  rw [if_neg (by push_neg; exact ⟨h5, h6⟩)]

/-! The claims. -/

/-- C1: for every path ending in `.md` (with suffix detection enabled),
`detectLlmSignal` returns the `MdSuffix` signal regardless of the accept
header and user-agent arguments; for non-suffix paths a matching accept
header wins over user-agent matching (the user agent is arbitrary in the
second part). -/
theorem detect_mdSuffix_priority :
    (∀ (p : String) (a u : Option String) (o : DetectOptions),
       o.enableMdSuffix = true → ".md".toList.isSuffixOf p.toList = true →
       ∃ orig, detectLlmSignal p a u o = some (.mdSuffix orig)) ∧
    (∀ (p a : String) (u : Option String) (o : DetectOptions),
       ¬ (o.enableMdSuffix = true ∧ ".md".toList.isSuffixOf p.toList = true) →
       0 < parseAcceptMarkdown a →
       detectLlmSignal p (some a) u o =
         some (.acceptHeader (parseAcceptMarkdown a))) := by
  constructor
  · intro p a u o h1 h2
    have hcond : (o.enableMdSuffix && ".md".toList.isSuffixOf p.toList) = true := by
      rw [h1, h2]; rfl
    unfold detectLlmSignal
    rw [hcond]
    exact ⟨_, rfl⟩
  · intro p a u o h1 h2
    have hb : (o.enableMdSuffix && ".md".toList.isSuffixOf p.toList) = false := by
      cases ho : o.enableMdSuffix with
      | false => rfl
      | true =>
        cases hs : ".md".toList.isSuffixOf p.toList with
        | false => rfl
        | true => exact absurd ⟨ho, hs⟩ h1
    unfold detectLlmSignal
    rw [hb]
    rw [if_neg (by exact Bool.false_ne_true)]
    show (if 0 < parseAcceptMarkdown a
          then some (.acceptHeader (parseAcceptMarkdown a))
          else detectLlmSignal.detectUserAgent u o)
      = some (.acceptHeader (parseAcceptMarkdown a))
    rw [if_pos h2]

/-- Witness for C1 at `/pricing.md` and `/pricing`. -/
theorem detect_mdSuffix_priority_witness :
    (∃ orig, detectLlmSignal "/pricing.md" (some "text/markdown") (some "GPTBot") {}
       = some (.mdSuffix orig)) ∧
    detectLlmSignal "/pricing" (some "text/markdown") (some "GPTBot") {}
      = some (.acceptHeader (parseAcceptMarkdown "text/markdown")) :=
  ⟨detect_mdSuffix_priority.1 "/pricing.md" (some "text/markdown") (some "GPTBot") {}
     rfl (by decide),
   detect_mdSuffix_priority.2 "/pricing" "text/markdown" (some "GPTBot") {}
     (by decide) (by decide)⟩

/-- C4: the path validator accepts exactly the nonempty paths that start
with exactly one `/`, contain no `://`, and have no `.` or `..` segment. -/
theorem isValidPath_characterization :
    isValidPath "" = false ∧
    ∀ p : String, (isValidPath p = true ↔
      ("/".toList <+: p.toList ∧ ¬ ("//".toList <+: p.toList) ∧
       strIncludes p "://" = false ∧
       ∀ s ∈ splitOnChar '/' p.toList, s ≠ ".".toList ∧ s ≠ "..".toList)) := by
  refine ⟨by decide, fun p => ?_⟩
  unfold isValidPath
  by_cases h1 : ("/".toList <+: p.toList)
  case neg =>
    rw [if_pos (by
      have hb : ("/".toList.isPrefixOf p.toList) = false := by
        rw [← Bool.not_eq_true]
        intro hb
        exact h1 (List.isPrefixOf_iff_prefix.mp hb)
      rw [hb]
      rfl)]
    exact iff_of_false Bool.false_ne_true (fun hR => h1 hR.1)
  case pos =>
  by_cases h2 : ("//".toList <+: p.toList)
  case pos =>
    rw [if_pos (by
      rw [List.isPrefixOf_iff_prefix.mpr h2, Bool.or_true])]
    exact iff_of_false Bool.false_ne_true (fun hR => hR.2.1 h2)
  case neg =>
  rw [if_neg (by
    have hb1 : "/".toList.isPrefixOf p.toList = true :=
      List.isPrefixOf_iff_prefix.mpr h1
    have hb2 : "//".toList.isPrefixOf p.toList = false := by
      rw [← Bool.not_eq_true]
      intro hb
      exact h2 (List.isPrefixOf_iff_prefix.mp hb)
    rw [hb1, hb2]
    exact Bool.false_ne_true)]
  by_cases h3 : strIncludes p "://" = true
  case pos =>
    rw [if_pos h3]
    refine iff_of_false Bool.false_ne_true (fun hR => ?_)
    rw [hR.2.2.1] at h3
    exact Bool.false_ne_true h3
  case neg =>
  rw [if_neg h3]
  have h3f : strIncludes p "://" = false := by
    rw [← Bool.not_eq_true]
    exact h3
  by_cases h4 : (splitOnChar '/' p.toList).any
      (fun s => s = ".".toList || s = "..".toList) = true
  case pos =>
    rw [if_pos h4]
    refine iff_of_false Bool.false_ne_true (fun hR => ?_)
    rcases List.any_eq_true.mp h4 with ⟨s, hs, hor⟩
    simp only [Bool.or_eq_true, decide_eq_true_eq] at hor
    rcases hR.2.2.2 s hs with ⟨hne1, hne2⟩
    rcases hor with h | h
    · exact hne1 h
    · exact hne2 h
  case neg =>
    rw [if_neg h4]
    refine iff_of_true rfl ⟨h1, h2, h3f, ?_⟩
    intro s hs
    constructor
    · intro hc
      exact h4 (List.any_eq_true.mpr ⟨s, hs, by simp [hc]⟩)
    · intro hc
      exact h4 (List.any_eq_true.mpr ⟨s, hs, by simp [hc]⟩)

/-- Witness for C4 at `/a/b` and the empty path. -/
theorem isValidPath_characterization_witness :
    isValidPath "/a/b" = true ∧ isValidPath "" = false :=
  ⟨(isValidPath_characterization.2 "/a/b").mpr
     ⟨by decide, by decide, by decide, by decide⟩,
   isValidPath_characterization.1⟩

/-- C10: content starting with `---` but with no further occurrence of
`---` at index ≥ 3 parses with no redirect and the full text as body. -/
theorem parseFrontmatter_unterminated :
    ∀ s : String, "---".toList.isPrefixOf s.toList = true →
      indexOfFrom s.toList "---".toList 3 = none →
      parseFrontmatter s = ⟨none, s⟩ := by
  intro s h1 h2
  unfold parseFrontmatter
  dsimp only
  rw [h1, Bool.not_true]
  rw [if_neg (by exact Bool.false_ne_true)]
  rw [h2]

/-- Witness for C10 at `"---\nhello"`. -/
theorem parseFrontmatter_unterminated_witness :
    parseFrontmatter "---\nhello" = ⟨none, "---\nhello"⟩ :=
  parseFrontmatter_unterminated "---\nhello" (by decide) (by decide)

/-- C9: every successful resolution carries the public cache policy when it
was produced by a curated artifact and the private cache policy when it was
produced by live fetch-and-convert. -/
theorem resolve_cache_policy :
    ∀ (env : GeoEnv) (depth : Nat) (path : String) (r : Resolved) (v : Via),
      (resolveMarkdownT env depth path).1 = some (r, v) →
      (v = .curated ∧ r.cacheControl = publicCacheControl) ∨
      (v = .converted ∧ r.cacheControl = privateCacheControl) :=
  fun env depth path r v h => resolveGo_policy env _ depth path r v h

/-- Witness for C9: the curated artifact at `/a` (via `/b`, `/c`) resolves
with the public policy. -/
theorem resolve_cache_policy_witness :
    (Via.curated = Via.curated ∧
      (⟨"C body", publicCacheControl⟩ : Resolved).cacheControl = publicCacheControl) ∨
    (Via.curated = Via.converted ∧
      (⟨"C body", publicCacheControl⟩ : Resolved).cacheControl = privateCacheControl) :=
  resolve_cache_policy exampleEnv 0 "/a" ⟨"C body", publicCacheControl⟩ .curated
    (by decide)

/-- C5: every path the artifact store actually reads passed the containment
check, and a direct candidate that escapes containment short-circuits the
whole lookup to not-found with no read at all. -/
theorem findPageMd_containment :
    (∀ (fs : FsEnv) (p q : String), q ∈ readTrace fs p →
       isPathWithinDirectory q fs.appDir = true) ∧
    (∀ (fs : FsEnv) (p : String),
       isPathWithinDirectory (directCandidate fs p) fs.appDir = false →
       findPageMdT fs p = (none, [])) := by
  constructor
  · intro fs p q hq
    simp only [readTrace, findPageMdT] at hq
    split at hq
    · simp at hq
    · next hwithin =>
      have hw : isPathWithinDirectory (directCandidate fs p) fs.appDir = true := by
        simpa using hwithin
      split at hq
      · simp only at hq
        simp at hq
        rw [hq]; exact hw
      · split at hq
        · simp at hq; rw [hq]; exact hw
        · refine scanRouteGroups_within fs p _ _ ?_ q hq
          intro q' hq'
          simp at hq'
          rw [hq']; exact hw
  · intro fs p h
    simp [findPageMdT, h]

/-- Witness for C5: the read at `/pricing` is contained, and the traversal
path `/../etc/passwd` resolves outside the root and is never read. -/
theorem findPageMd_containment_witness :
    isPathWithinDirectory "/w/app/pricing/page.md" exampleFs.appDir = true ∧
    findPageMdT exampleFs "/../etc/passwd" = (none, []) :=
  ⟨findPageMd_containment.1 exampleFs "/pricing" "/w/app/pricing/page.md" (by decide),
   findPageMd_containment.2 exampleFs "/../etc/passwd" (by decide)⟩

/-- C2: a live fetch answered by a 3xx whose resolved location is on a
foreign host resolves to `none` (the same outcome as a genuine miss, as for
every security rejection here) with exactly that one fetch issued — the
redirect is never followed, so the forwarded cookies travel on at most that
single rejected hop; moreover every URL the resolver ever fetches is on the
origin host. -/
theorem resolve_foreign_redirect_notFound :
    (∀ (env : GeoEnv) (depth : Nat) (path : String) (resp : FetchResp) (loc : UrlM),
       env.findPageMd path = none →
       env.enableAutoConversion = true →
       (mkUrl env.base path).host = env.base.host →
       env.fetch (mkUrl env.base path) = some resp →
       300 ≤ resp.status → resp.status < 400 →
       resp.location = some loc →
       loc.host ≠ env.base.host →
       resolveMarkdown env depth path = none ∧
         fetchTrace env depth path = [mkUrl env.base path]) ∧
    (∀ (env : GeoEnv) (depth : Nat) (path : String) (u : UrlM),
       u ∈ fetchTrace env depth path → u.host = env.base.host) := by
  constructor
  · intro env depth path resp loc h1 h2 h3 h4 h5 h6 h7 h8
    have key : resolveMarkdownT env depth path = (none, [mkUrl env.base path], 1) := by
      show resolveGo env (MAX_REDIRECTS + 1) depth path = _
      unfold resolveGo
      rw [h1]
      dsimp only
      rw [if_neg (by rw [h2]; exact Bool.false_ne_true)]
      rw [if_neg (fun hc => hc h3)]
      rw [h4]
      dsimp only
      by_cases hd : depth < MAX_REDIRECTS
      · rw [if_pos ⟨hd, h5, h6⟩, h7]
        dsimp only
        rw [if_neg (fun hc => h8 hc)]
      · rw [if_neg (fun hc => hd hc.1)]
        rw [if_pos (show ¬ (200 ≤ resp.status ∧ resp.status < 300) from
          fun hc => by have := hc.2; omega)]
    constructor
    · show ((resolveMarkdownT env depth path).1).map Prod.fst = none
      rw [key]
      rfl
    · show (resolveMarkdownT env depth path).2.1 = _
      rw [key]
  · intro env depth path u h
    exact resolveGo_trace_host env _ depth path u h

/-- Witness for C2: `exampleEnv`'s `/redir` answers 307 with a location on
`evil.com`. -/
theorem resolve_foreign_redirect_notFound_witness :
    (resolveMarkdown exampleEnv 0 "/redir" = none ∧
      fetchTrace exampleEnv 0 "/redir" = [mkUrl exampleEnv.base "/redir"]) ∧
    (mkUrl exampleEnv.base "/redir").host = exampleEnv.base.host :=
  ⟨resolve_foreign_redirect_notFound.1 exampleEnv 0 "/redir"
     ⟨307, some ⟨"evil.com", "/x"⟩, none, ""⟩ ⟨"evil.com", "/x"⟩
     (by decide) rfl (by decide) (by decide) (by decide) (by decide) (by decide)
     (by decide),
   resolve_foreign_redirect_notFound.2 exampleEnv 0 "/redir"
     (mkUrl exampleEnv.base "/redir") (by decide)⟩

/-- C3: a chain `A → redirect B → redirect C → (no redirect)` succeeds in
exactly 2 hops (3 resolution attempts) with `C`'s body and the public
policy; a chain needing a 4th hop fails with `none`; and resolution always
makes at most `MAX_REDIRECTS + 1 = 4` attempts. -/
theorem resolve_hop_bound :
    (∀ (env : GeoEnv) (A B C aA aB aC : String),
       env.findPageMd A = some aA → (parseFrontmatter aA).redirect = some B →
       isValidPath B = true →
       env.findPageMd B = some aB → (parseFrontmatter aB).redirect = some C →
       isValidPath C = true →
       env.findPageMd C = some aC → (parseFrontmatter aC).redirect = none →
       resolveMarkdown env 0 A
           = some ⟨(parseFrontmatter aC).body, publicCacheControl⟩ ∧
         attempts env 0 A = 3) ∧
    (∀ (env : GeoEnv) (p0 p1 p2 p3 p4 a0 a1 a2 a3 : String),
       env.findPageMd p0 = some a0 → (parseFrontmatter a0).redirect = some p1 →
       isValidPath p1 = true →
       env.findPageMd p1 = some a1 → (parseFrontmatter a1).redirect = some p2 →
       isValidPath p2 = true →
       env.findPageMd p2 = some a2 → (parseFrontmatter a2).redirect = some p3 →
       isValidPath p3 = true →
       env.findPageMd p3 = some a3 → (parseFrontmatter a3).redirect = some p4 →
       resolveMarkdown env 0 p0 = none) ∧
    (∀ (env : GeoEnv) (path : String), attempts env 0 path ≤ MAX_REDIRECTS + 1) := by
  refine ⟨?_, ?_, ?_⟩
  · intro env A B C aA aB aC h1 h2 h3 h4 h5 h6 h7 h8
    have key : resolveMarkdownT env 0 A
        = (some (⟨(parseFrontmatter aC).body, publicCacheControl⟩, .curated), [], 3) := by
      show resolveGo env (MAX_REDIRECTS + 1) 0 A = _
      rw [resolveGo_step_redirect env MAX_REDIRECTS 0 A aA B h1 h2 h3 (by decide)]
      rw [show MAX_REDIRECTS = 2 + 1 from rfl]
      rw [resolveGo_step_redirect env 2 (0 + 1) B aB C h4 h5 h6 (by decide)]
      rw [show (2 : Nat) = 1 + 1 from rfl]
      rw [resolveGo_step_curated env 1 (0 + 1 + 1) C aC h7 h8]
    constructor
    · show ((resolveMarkdownT env 0 A).1).map Prod.fst = _
      rw [key]
      rfl
    · show (resolveMarkdownT env 0 A).2.2 = 3
      rw [key]
  · intro env p0 p1 p2 p3 p4 a0 a1 a2 a3 h1 h2 h3 h4 h5 h6 h7 h8 h9 h10 h11
    have key : resolveMarkdownT env 0 p0 = (none, [], 4) := by
      show resolveGo env (MAX_REDIRECTS + 1) 0 p0 = _
      rw [resolveGo_step_redirect env MAX_REDIRECTS 0 p0 a0 p1 h1 h2 h3 (by decide)]
      rw [show MAX_REDIRECTS = 2 + 1 from rfl]
      rw [resolveGo_step_redirect env 2 (0 + 1) p1 a1 p2 h4 h5 h6 (by decide)]
      rw [show (2 : Nat) = 1 + 1 from rfl]
      rw [resolveGo_step_redirect env 1 (0 + 1 + 1) p2 a2 p3 h7 h8 h9 (by decide)]
      rw [show (1 : Nat) = 0 + 1 from rfl]
      rw [resolveGo_step_hopExceeded env 0 (0 + 1 + 1 + 1) p3 a3 p4 h10 h11 (by decide)]
    show ((resolveMarkdownT env 0 p0).1).map Prod.fst = none
    rw [key]
    rfl
  · intro env path
    have h := resolveGo_attempts_le env (MAX_REDIRECTS + 1) 0 path
    show (resolveMarkdownT env 0 path).2.2 ≤ MAX_REDIRECTS + 1
    calc (resolveMarkdownT env 0 path).2.2
        ≤ MAX_REDIRECTS - 0 + 1 := h
      _ ≤ MAX_REDIRECTS + 1 := by omega

/-- Witness for C3 on `exampleEnv`: the chain `/a → /b → /c` and the long
chain `/d0 → … → /d4`. -/
theorem resolve_hop_bound_witness :
    (resolveMarkdown exampleEnv 0 "/a"
        = some ⟨(parseFrontmatter "C body").body, publicCacheControl⟩ ∧
      attempts exampleEnv 0 "/a" = 3) ∧
    resolveMarkdown exampleEnv 0 "/d0" = none ∧
    attempts exampleEnv 0 "/live" ≤ MAX_REDIRECTS + 1 :=
  ⟨resolve_hop_bound.1 exampleEnv "/a" "/b" "/c"
     "---\nredirect: /b\n---\n" "---\nredirect: /c\n---" "C body"
     (by decide) (by decide) (by decide) (by decide) (by decide) (by decide)
     (by decide) (by decide),
   resolve_hop_bound.2.1 exampleEnv "/d0" "/d1" "/d2" "/d3" "/d4"
     "---\nredirect: /d1\n---" "---\nredirect: /d2\n---" "---\nredirect: /d3\n---"
     "---\nredirect: /d4\n---"
     (by decide) (by decide) (by decide) (by decide) (by decide) (by decide)
     (by decide) (by decide) (by decide) (by decide) (by decide),
   resolve_hop_bound.2.2 exampleEnv "/live"⟩

/-- C6: under a successful (2xx) response, a declared `content-length`
above the 5 MiB ceiling yields `none` (for every body, so the body is
irrelevant and nothing reaches the converter), an actual body longer than
the ceiling yields `none`, and a whitespace-only body yields `none`; the
environment (hence the converter) is arbitrary throughout. -/
theorem resolve_size_ceiling :
    (∀ (env : GeoEnv) (depth : Nat) (path : String) (resp : FetchResp)
       (s : String) (n : Int),
       env.findPageMd path = none → env.enableAutoConversion = true →
       (mkUrl env.base path).host = env.base.host →
       env.fetch (mkUrl env.base path) = some resp →
       200 ≤ resp.status → resp.status < 300 →
       resp.contentLength = some s → s ≠ "" →
       parseIntM s = some n → (MAX_HTML_SIZE : Int) < n →
       resolveMarkdown env depth path = none) ∧
    (∀ (env : GeoEnv) (depth : Nat) (path : String) (resp : FetchResp),
       env.findPageMd path = none → env.enableAutoConversion = true →
       (mkUrl env.base path).host = env.base.host →
       env.fetch (mkUrl env.base path) = some resp →
       200 ≤ resp.status → resp.status < 300 →
       contentLengthOver resp.contentLength = false →
       MAX_HTML_SIZE < resp.body.toList.length →
       resolveMarkdown env depth path = none) ∧
    (∀ (env : GeoEnv) (depth : Nat) (path : String) (resp : FetchResp),
       env.findPageMd path = none → env.enableAutoConversion = true →
       (mkUrl env.base path).host = env.base.host →
       env.fetch (mkUrl env.base path) = some resp →
       200 ≤ resp.status → resp.status < 300 →
       contentLengthOver resp.contentLength = false →
       trimChars resp.body.toList = [] →
       resolveMarkdown env depth path = none) := by
  refine ⟨?_, ?_, ?_⟩
  · intro env depth path resp s n h1 h2 h3 h4 h5 h6 h7 h8 h9 h10
    have hcl : contentLengthOver resp.contentLength = true := by
      unfold contentLengthOver
      rw [h7]
      dsimp only
      rw [if_neg h8]
      rw [h9]
      exact decide_eq_true h10
    show ((resolveMarkdownT env depth path).1).map Prod.fst = none
    rw [show resolveMarkdownT env depth path
          = resolveGo env (MAX_REDIRECTS + 1) depth path from rfl]
    rw [resolveGo_step_fetched env MAX_REDIRECTS depth path resp h1 h2 h3 h4 h5 h6]
    rw [if_pos hcl]
    rfl
  · intro env depth path resp h1 h2 h3 h4 h5 h6 h7 h8
    have hb : bodyRejected resp.body = true := by
      unfold bodyRejected
      rw [decide_eq_true h8, Bool.or_true]
    show ((resolveMarkdownT env depth path).1).map Prod.fst = none
    rw [show resolveMarkdownT env depth path
          = resolveGo env (MAX_REDIRECTS + 1) depth path from rfl]
    rw [resolveGo_step_fetched env MAX_REDIRECTS depth path resp h1 h2 h3 h4 h5 h6]
    rw [if_neg (by rw [h7]; exact Bool.false_ne_true), if_pos hb]
    rfl
  · intro env depth path resp h1 h2 h3 h4 h5 h6 h7 h8
    have hb : bodyRejected resp.body = true := by
      unfold bodyRejected
      rw [h8]
      rfl
    show ((resolveMarkdownT env depth path).1).map Prod.fst = none
    rw [show resolveMarkdownT env depth path
          = resolveGo env (MAX_REDIRECTS + 1) depth path from rfl]
    rw [resolveGo_step_fetched env MAX_REDIRECTS depth path resp h1 h2 h3 h4 h5 h6]
    rw [if_neg (by rw [h7]; exact Bool.false_ne_true), if_pos hb]
    rfl

/-- Witness for C6: an oversized declared length at `/big-cl`, an oversized
actual body in `bigBodyEnv`, and the whitespace-only body at `/blank`. -/
theorem resolve_size_ceiling_witness :
    resolveMarkdown exampleEnv 0 "/big-cl" = none ∧
    resolveMarkdown bigBodyEnv 0 "/p" = none ∧
    resolveMarkdown exampleEnv 0 "/blank" = none :=
  ⟨resolve_size_ceiling.1 exampleEnv 0 "/big-cl"
     ⟨200, none, some "9999999", "small"⟩ "9999999" 9999999
     (by decide) rfl (by decide) (by decide) (by decide) (by decide)
     (by decide) (by decide) (by decide) (by decide),
   resolve_size_ceiling.2.1 bigBodyEnv 0 "/p" ⟨200, none, none, bigBody⟩
     rfl rfl (by decide) rfl (by decide) (by decide) rfl
     (by show MAX_HTML_SIZE < (String.mk (List.replicate (MAX_HTML_SIZE + 1) 'a')).toList.length
         simp),
   resolve_size_ceiling.2.2 exampleEnv 0 "/blank" ⟨200, none, none, "   "⟩
     (by decide) rfl (by decide) (by decide) (by decide) (by decide) rfl
     (by decide)⟩

/-! Support lemmas about the modelled JavaScript string primitives. -/

/-- Splitting a list without the separator gives the singleton. -/
theorem splitOnChar_of_not_mem (sep : Char) :
    ∀ l : List Char, sep ∉ l → splitOnChar sep l = [l] := by
  intro l
  induction l with
  | nil => intro _; rfl
  | cons c rest ih =>
    intro h
    have hc : ¬ c = sep := fun hc => h (hc ▸ List.mem_cons_self c rest)
    have hr : sep ∉ rest := fun hr => h (List.mem_cons_of_mem c hr)
    simp only [splitOnChar, if_neg hc, ih hr]

/-- Splitting at the first separator occurrence. -/
theorem splitOnChar_append_sep (sep : Char) :
    ∀ (a b : List Char), sep ∉ a →
      splitOnChar sep (a ++ sep :: b) = a :: splitOnChar sep b := by
  intro a
  induction a with
  | nil => intro b _; simp [splitOnChar]
  | cons c a' ih =>
    intro b h
    have hc : ¬ c = sep := fun hc => h (hc ▸ List.mem_cons_self c a')
    have ha : sep ∉ a' := fun hr => h (List.mem_cons_of_mem c hr)
    simp only [List.cons_append, splitOnChar, List.append_eq, if_neg hc, ih b ha]

/-- Right-trimming is idempotent. -/
theorem rtrimChars_idem (l : List Char) :
    rtrimChars (rtrimChars l) = rtrimChars l := by
  unfold rtrimChars
  rw [List.reverse_reverse, List.dropWhile_idempotent]

/-- Right-trimming only removes characters. -/
theorem mem_of_mem_rtrimChars {x : Char} {l : List Char}
    (h : x ∈ rtrimChars l) : x ∈ l := by
  unfold rtrimChars at h
  rw [List.mem_reverse] at h
  have := (List.dropWhile_sublist isJsWS (l := l.reverse)).mem h
  rwa [List.mem_reverse] at this

/-- Trimming a concatenation whose left part starts and ends with
non-whitespace right-trims only the right part. -/
theorem trimChars_append (a b : List Char) (ha : a ≠ [])
    (h1 : a.dropWhile isJsWS = a) (h2 : a.reverse.dropWhile isJsWS = a.reverse) :
    trimChars (a ++ b) = a ++ rtrimChars b := by
  unfold trimChars rtrimChars
  rw [List.dropWhile_append, h1]
  rw [if_neg (by simpa using ha)]
  rw [List.reverse_append, List.dropWhile_append, h2]
  by_cases hb : (b.reverse.dropWhile isJsWS).isEmpty = true
  · rw [if_pos hb, List.isEmpty_iff.mp hb]
    simp
  · rw [if_neg hb]
    simp

/-- If a pattern does not occur in `c :: t`, it does not occur in `t`. -/
theorem hasSubList_tail {pat : List Char} {c : Char} {t : List Char}
    (h : hasSubList pat (c :: t) = false) : hasSubList pat t = false := by
  have := congrArg id h
  simp only [hasSubList, id, Bool.or_eq_false_iff] at this
  exact this.2

/-- The first occurrence of a nonempty pattern in `fm ++ pat ++ rest` is at
index `fm.length` provided no occurrence starts inside `fm` (expressed as:
`pat` does not occur in `fm ++ pat.dropLast`, the longest part of the text a
window starting inside `fm` can see). -/
theorem firstOcc_append_of_not_early (pat : List Char) (hpat : pat ≠ []) :
    ∀ (fm rest : List Char), hasSubList pat (fm ++ pat.dropLast) = false →
      firstOcc pat (fm ++ pat ++ rest) = some fm.length := by
  intro fm
  induction fm with
  | nil =>
    intro rest _
    have hpref : pat.isPrefixOf (pat ++ rest) = true :=
      List.isPrefixOf_iff_prefix.mpr (List.prefix_append pat rest)
    cases hp : pat with
    | nil => exact absurd hp hpat
    | cons p0 pt =>
      subst hp
      rw [List.cons_append] at hpref
      show firstOcc (p0 :: pt) ([] ++ (p0 :: pt) ++ rest) = some ([] : List Char).length
      rw [List.nil_append, List.cons_append]
      simp only [firstOcc]
      rw [hpref]
      simp
  | cons c fm' ih =>
    intro rest h
    have hplen : 0 < pat.length := List.length_pos.mpr hpat
    have hnotpref : pat.isPrefixOf (c :: (fm' ++ (pat ++ rest))) = false := by
      rw [← Bool.not_eq_true]
      intro hb
      have hpre : pat <+: (c :: fm') ++ (pat ++ rest) := by
        rw [List.cons_append]
        exact List.isPrefixOf_iff_prefix.mp hb
      have hsplit : pat.dropLast ++ [pat.getLast hpat] = pat :=
        List.dropLast_append_getLast hpat
      have hdecomp : (c :: fm') ++ (pat ++ rest)
          = ((c :: fm') ++ pat.dropLast) ++ ([pat.getLast hpat] ++ rest) := by
        conv_lhs => rw [← hsplit]
        simp [List.append_assoc]
      have hKlen : pat.length ≤ ((c :: fm') ++ pat.dropLast).length := by
        rw [List.length_append, List.length_cons, List.length_dropLast]
        omega
      have htake : pat = ((c :: fm') ++ pat.dropLast).take pat.length := by
        have h0 := List.prefix_iff_eq_take.mp hpre
        rw [hdecomp, List.take_append_of_le_length hKlen] at h0
        exact h0
      have hpre2 : pat <+: ((c :: fm') ++ pat.dropLast) := by
        have ht := List.take_prefix pat.length ((c :: fm') ++ pat.dropLast)
        rwa [← htake] at ht
      have hpref2 : pat.isPrefixOf ((c :: fm') ++ pat.dropLast) = true :=
        List.isPrefixOf_iff_prefix.mpr hpre2
      rw [List.cons_append] at hpref2
      have hcontra : hasSubList pat ((c :: fm') ++ pat.dropLast) = true := by
        show (pat.isPrefixOf (c :: (fm' ++ pat.dropLast))
          || hasSubList pat (fm' ++ pat.dropLast)) = true
        rw [hpref2, Bool.true_or]
      rw [hcontra] at h
      exact Bool.noConfusion h
    have ih2 := ih rest (hasSubList_tail h)
    rw [List.append_assoc] at ih2
    show firstOcc pat ((c :: fm') ++ pat ++ rest) = some (c :: fm').length
    rw [List.append_assoc, List.cons_append]
    simp only [firstOcc]
    rw [hnotpref]
    rw [if_neg (by simp)]
    rw [ih2]
    simp

/-- Sanity check: the overflow-boundary literal is `2 ^ 1024 - 2 ^ 971`. -/
theorem OVERFLOW_BOUND_eq : OVERFLOW_BOUND = 2 ^ 1024 - 2 ^ 971 := by
  norm_num [OVERFLOW_BOUND, Rat.divInt_eq_div]

/-- Sanity check: the underflow-boundary literal is `2 ^ (-1075)`. -/
theorem UNDERFLOW_BOUND_eq : UNDERFLOW_BOUND = 1 / 2 ^ 1075 := by
  norm_num [UNDERFLOW_BOUND, Rat.divInt_eq_div]

/-- C7 counterexample: the quality is not clamped to `[0,1]` — the entry
`text/markdown;q=5` yields `AcceptHeader` with quality `5 > 1`. -/
theorem detect_quality_counterexample :
    detectLlmSignal "/pricing" (some "text/markdown;q=5") none {}
        = some (.acceptHeader (.finite 5)) ∧
    ¬ ((5 : ℚ) ≤ 1) := by
  constructor
  · decide
  · decide

/-- C7 amended: for a `text/markdown` entry, the quality is the `q=` value
right-trimmed and parsed by `parseFloat` (defaulting to `1` when the
parameter is absent or parses to `NaN`); detection returns `AcceptHeader`
with exactly that quality whenever it is positive, and falls through to the
user-agent check when it is not; the quality is not clamped to `[0,1]`, and
exponents, underflow to zero (which causes fall-through) and `Infinity` all
behave as `parseFloat` does. -/
theorem detect_quality_amended :
    (∀ s : List Char, ',' ∉ s → ';' ∉ s →
       parseAcceptMarkdown (String.mk ("text/markdown;q=".toList ++ s)) =
         (match parseJsFloat (rtrimChars s) with
          | some q => q
          | none => 1)) ∧
    (∀ (p a : String) (u : Option String) (o : DetectOptions),
       ¬ (o.enableMdSuffix = true ∧ ".md".toList.isSuffixOf p.toList = true) →
       0 < parseAcceptMarkdown a →
       detectLlmSignal p (some a) u o =
         some (.acceptHeader (parseAcceptMarkdown a))) ∧
    (∀ (p a : String) (u : Option String) (o : DetectOptions),
       ¬ (o.enableMdSuffix = true ∧ ".md".toList.isSuffixOf p.toList = true) →
       ¬ (0 < parseAcceptMarkdown a) →
       detectLlmSignal p (some a) u o = detectLlmSignal.detectUserAgent u o) ∧
    parseAcceptMarkdown "text/markdown" = 1 ∧
    parseAcceptMarkdown "text/markdown;q=xyz" = 1 ∧
    parseAcceptMarkdown "text/markdown;q=1e5" = .finite 100000 ∧
    parseAcceptMarkdown "text/markdown;q=1e-400" = .finite 0 ∧
    parseAcceptMarkdown "text/markdown;q=Infinity" = .posInf ∧
    detectLlmSignal "/pricing" (some "text/markdown;q=1e-400") (some "GPTBot") {}
      = some (.userAgent "GPTBot") := by
  refine ⟨?_, ?_, ?_, by decide, by decide, by decide, by decide, by decide,
    by decide⟩
  · intro s hc hsc
    unfold parseAcceptMarkdown
    rw [show (String.mk ("text/markdown;q=".toList ++ s)).toList
          = "text/markdown;q=".toList ++ s from rfl]
    rw [splitOnChar_of_not_mem ',' _ (by
      intro hmem
      rcases List.mem_append.mp hmem with hmem | hmem
      · revert hmem; decide
      · exact hc hmem)]
    rw [List.map_cons, List.map_nil]
    rw [trimChars_append _ _ (by decide) (by decide) (by decide)]
    rw [show "text/markdown;q=".toList ++ rtrimChars s
          = "text/markdown".toList ++ ';' :: ("q=".toList ++ rtrimChars s) from by
      rw [show "text/markdown;q=".toList
            = ("text/markdown".toList ++ ';' :: "q=".toList) from by decide]
      rw [List.append_assoc, List.cons_append]]
    simp only [parseAcceptMarkdown.go]
    rw [splitOnChar_append_sep ';' _ _ (by decide)]
    rw [splitOnChar_of_not_mem ';' _ (by
      intro hmem
      rcases List.mem_append.mp hmem with hmem | hmem
      · revert hmem; decide
      · exact hsc (mem_of_mem_rtrimChars hmem))]
    rw [List.map_cons, List.map_cons, List.map_nil]
    rw [show trimChars "text/markdown".toList = "text/markdown".toList from by decide]
    rw [trimChars_append "q=".toList _ (by decide) (by decide) (by decide),
      rtrimChars_idem]
    dsimp only
    rw [if_pos (show "text/markdown".toList.map lowerChar = "text/markdown".toList
          from by decide)]
    rw [List.find?_cons_of_pos _ (show ("q=".toList.isPrefixOf
          ("q=".toList ++ rtrimChars s)) = true from
        List.isPrefixOf_iff_prefix.mpr (List.prefix_append _ _))]
    dsimp only
    rw [show ("q=".toList ++ rtrimChars s).drop 2 = rtrimChars s from rfl]
  · intro p a u o h1 h2
    have hb : (o.enableMdSuffix && ".md".toList.isSuffixOf p.toList) = false := by
      cases ho : o.enableMdSuffix with
      | false => rfl
      | true =>
        cases hs : ".md".toList.isSuffixOf p.toList with
        | false => rfl
        | true => exact absurd ⟨ho, hs⟩ h1
    unfold detectLlmSignal
    rw [hb, if_neg (by exact Bool.false_ne_true)]
    show (if 0 < parseAcceptMarkdown a
          then some (.acceptHeader (parseAcceptMarkdown a))
          else detectLlmSignal.detectUserAgent u o)
      = some (.acceptHeader (parseAcceptMarkdown a))
    rw [if_pos h2]
  · intro p a u o h1 h2
    have hb : (o.enableMdSuffix && ".md".toList.isSuffixOf p.toList) = false := by
      cases ho : o.enableMdSuffix with
      | false => rfl
      | true =>
        cases hs : ".md".toList.isSuffixOf p.toList with
        | false => rfl
        | true => exact absurd ⟨ho, hs⟩ h1
    unfold detectLlmSignal
    rw [hb, if_neg (by exact Bool.false_ne_true)]
    show (if 0 < parseAcceptMarkdown a
          then some (.acceptHeader (parseAcceptMarkdown a))
          else detectLlmSignal.detectUserAgent u o)
      = detectLlmSignal.detectUserAgent u o
    rw [if_neg h2]

/-- Witness for C7's amended claim at `q=0.8` (returned) and `q=0`
(fall-through to user-agent detection). -/
theorem detect_quality_amended_witness :
    parseAcceptMarkdown (String.mk ("text/markdown;q=".toList ++ "0.8".toList))
        = (match parseJsFloat (rtrimChars "0.8".toList) with
           | some q => q
           | none => 1) ∧
    detectLlmSignal "/pricing" (some "text/markdown;q=0.8") none {}
        = some (.acceptHeader (parseAcceptMarkdown "text/markdown;q=0.8")) ∧
    detectLlmSignal "/pricing" (some "text/markdown;q=0") (some "GPTBot") {}
        = detectLlmSignal.detectUserAgent (some "GPTBot") {} :=
  ⟨detect_quality_amended.1 "0.8".toList (by decide) (by decide),
   detect_quality_amended.2.1 "/pricing" "text/markdown;q=0.8" none {}
     (by decide) (by decide),
   detect_quality_amended.2.2.1 "/pricing" "text/markdown;q=0" (some "GPTBot") {}
     (by decide) (by decide)⟩

/-- C8 counterexample: the closing delimiter is found by substring search,
not line by line.  With the metadata value `a---b`, the block closes inside
the value, so the parser returns redirect `a` and body `b\n---\nc` instead
of the claimed redirect `a---b` and body `c`. -/
theorem parseFrontmatter_line_delimiter_cex :
    parseFrontmatter "---\nredirect: a---b\n---\nc" = ⟨some "a", "b\n---\nc"⟩ ∧
    parseFrontmatter "---\nredirect: a---b\n---\nc" ≠ ⟨some "a---b", "c"⟩ := by
  constructor
  · decide
  · decide

/-- C8 amended: the closing delimiter is the first occurrence of `---` at
index ≥ 3 (not necessarily a whole line).  When the metadata block contains
no earlier `---` (including across the closing boundary), the parser
extracts the first `redirect:` line of the block (value trimmed; a value
whose trimmed span contains a bare carriage return matches nothing, since
the regex `.` does not match line terminators, and a later redirect line
then wins) and the body is everything after the closing `---` with one
leading line break stripped; text not starting with `---` has no redirect
and is returned whole as the body. -/
theorem parseFrontmatter_amended :
    (∀ (fm rest : List Char),
       hasSubList "---".toList (fm ++ "---".toList.dropLast) = false →
       parseFrontmatter (String.mk ("---".toList ++ fm ++ "---".toList ++ rest)) =
         ⟨(splitOnChar '\n' fm).findSome? redirectLineValue,
          String.mk (stripLeadingNewline rest)⟩) ∧
    (∀ v : List Char, v ≠ [] → trimChars v = v → '\r' ∉ v → '\n' ∉ v →
       redirectLineValue ("redirect: ".toList ++ v) = some (String.mk v)) ∧
    redirectLineValue "redirect: a\rb".toList = none ∧
    parseFrontmatter "---\nredirect: a\rb\nredirect: /real\n---\nX"
      = ⟨some "/real", "X"⟩ ∧
    redirectLineValue "redirect:  \r".toList = some " " ∧
    (∀ s : String, "---".toList.isPrefixOf s.toList = false →
       parseFrontmatter s = ⟨none, s⟩) := by
  refine ⟨?_, ?_, by decide, by decide, by decide, ?_⟩
  · intro fm rest h
    have hidx : indexOfFrom ("---".toList ++ fm ++ "---".toList ++ rest)
        "---".toList 3 = some (fm.length + 3) := by
      unfold indexOfFrom
      rw [show List.drop 3 ("---".toList ++ fm ++ "---".toList ++ rest)
            = fm ++ "---".toList ++ rest from rfl]
      rw [firstOcc_append_of_not_early "---".toList (by decide) fm rest h]
      rfl
    have hfront : List.take (fm.length + 3 - 3)
        (List.drop 3 ("---".toList ++ fm ++ "---".toList ++ rest)) = fm := by
      rw [show List.drop 3 ("---".toList ++ fm ++ "---".toList ++ rest)
            = fm ++ "---".toList ++ rest from rfl]
      rw [Nat.add_sub_cancel]
      rw [List.append_assoc]
      exact List.take_left _ _
    have hbody : List.drop (fm.length + 3 + 3)
        ("---".toList ++ fm ++ "---".toList ++ rest) = rest := by
      have hlen : ("---".toList ++ fm ++ "---".toList).length = fm.length + 3 + 3 := by
        rw [List.length_append, List.length_append,
          show ("---".toList).length = 3 from rfl]
        omega
      rw [← hlen, List.drop_left]
    have hpref : "---".toList.isPrefixOf
        ("---".toList ++ fm ++ "---".toList ++ rest) = true := by
      apply List.isPrefixOf_iff_prefix.mpr
      rw [List.append_assoc, List.append_assoc]
      exact List.prefix_append _ _
    unfold parseFrontmatter
    dsimp only [String.toList] at hidx hfront hbody hpref ⊢
    rw [hpref, Bool.not_true]
    rw [if_neg (by exact Bool.false_ne_true)]
    rw [hidx]
    dsimp only
    rw [hfront, hbody]
  · intro v hne htr hr hn
    have hv : ∃ x ∈ v, isJsWS x = false := by
      by_contra hall
      push_neg at hall
      have hd : v.dropWhile isJsWS = [] := List.dropWhile_eq_nil_iff.mpr (by
        intro x hx
        cases hxx : isJsWS x with
        | false => exact absurd hxx (hall x hx)
        | true => rfl)
      have htz : trimChars v = [] := by
        unfold trimChars
        rw [hd]
        rfl
      rw [htr] at htz
      exact hne htz
    have hred : redirectLineValue ("redirect: ".toList ++ v)
        = (if (' ' :: v).any (fun c => !isJsWS c) = true
           then (if (trimChars (' ' :: v)).any isLineTerm = true then none
                 else some (String.mk (trimChars (' ' :: v))))
           else
             match ((' ' :: v).filter (fun c => !isLineTerm c)).getLast? with
             | some c => some (String.mk [c])
             | none => none) := rfl
    rw [hred]
    rw [if_pos (by
      apply List.any_eq_true.mpr
      rcases hv with ⟨x, hx, hxf⟩
      exact ⟨x, List.mem_cons_of_mem _ hx, by rw [hxf]; rfl⟩)]
    rw [show trimChars (' ' :: v) = trimChars v from by
      unfold trimChars
      rw [List.dropWhile_cons_of_pos (by decide)]]
    rw [htr]
    have hterm : v.any isLineTerm = false := by
      cases hv2 : v.any isLineTerm with
      | false => rfl
      | true =>
        rcases List.any_eq_true.mp hv2 with ⟨x, hx, hxt⟩
        unfold isLineTerm at hxt
        simp only [Bool.or_eq_true, decide_eq_true_eq] at hxt
        rcases hxt with hc | hc
        · exact absurd (hc ▸ hx) hn
        · exact absurd (hc ▸ hx) hr
    rw [hterm]
    rw [if_neg (by exact Bool.false_ne_true)]
  · intro s h
    unfold parseFrontmatter
    dsimp only
    rw [h]
    rfl

/-- Witness for C8's amended claim: a well-formed block with value `/x`, the
standalone redirect-line extraction, and a plain artifact. -/
theorem parseFrontmatter_amended_witness :
    parseFrontmatter (String.mk ("---".toList ++ "\nredirect: /x\n".toList
        ++ "---".toList ++ "\nBody".toList))
      = ⟨(splitOnChar '\n' "\nredirect: /x\n".toList).findSome? redirectLineValue,
         String.mk (stripLeadingNewline "\nBody".toList)⟩ ∧
    redirectLineValue ("redirect: ".toList ++ "/x".toList)
      = some (String.mk "/x".toList) ∧
    parseFrontmatter "hello" = ⟨none, "hello"⟩ :=
  ⟨parseFrontmatter_amended.1 "\nredirect: /x\n".toList "\nBody".toList (by decide),
   parseFrontmatter_amended.2.1 "/x".toList (by decide) (by decide) (by decide)
     (by decide),
   parseFrontmatter_amended.2.2.2.2.2 "hello" (by decide)⟩

end NextGeo
